import Mathlib

/-!
Shallow embedding of the Tapestry object directory (`objectstore.go`) and the
client data path (the `Tapestry` facade in the unnamed source file).

Go maps are embedded as association lists with Go's map semantics:
lookup returns the (unique) binding, assignment replaces an existing binding,
`delete` removes the binding. `time.Timer` objects created by `time.AfterFunc`
are embedded with explicit identities so that liveness of a scheduled timer
(scheduled, not yet fired, not stopped) is observable. Mutation is embedded as
explicit state passing.
-/

set_option autoImplicit false

/-- Bytes of a blob, as held by the blob store. -/
abbrev Blob := List Nat

/-- Identifiers in the overlay's identifier space; opaque to the directory. -/
abbrev ID := Nat

/-- A tapestry node: identifier plus network address. Equality is structural,
matching Go's value-type comparison used for map keys. -/
structure Node where
  id : ID
  address : String
deriving DecidableEq

/-- Association-list lookup, embedding Go map indexing `m[k]`. -/
def alookup {α β : Type} [DecidableEq α] : List (α × β) → α → Option β
  | [], _ => none
  | (a, b) :: rest, k => if a = k then some b else alookup rest k

/-- Association-list insertion, embedding Go map assignment `m[k] = v`:
replaces the binding when the key is present, appends otherwise. -/
def ainsert {α β : Type} [DecidableEq α] (k : α) (v : β) : List (α × β) → List (α × β)
  | [] => [(k, v)]
  | (a, b) :: rest => if a = k then (k, v) :: rest else (a, b) :: ainsert k v rest

/-- Association-list deletion, embedding Go `delete(m, k)`. -/
def aerase {α β : Type} [DecidableEq α] (k : α) : List (α × β) → List (α × β)
  | [] => []
  | (a, b) :: rest => if a = k then aerase k rest else (a, b) :: aerase k rest

theorem alookup_cons {α β : Type} [DecidableEq α] (a : α) (b : β) (rest : List (α × β)) (k : α) :
    alookup ((a, b) :: rest) k = if a = k then some b else alookup rest k := rfl

theorem ainsert_cons {α β : Type} [DecidableEq α] (k a : α) (v b : β) (rest : List (α × β)) :
    ainsert k v ((a, b) :: rest) =
      if a = k then (k, v) :: rest else (a, b) :: ainsert k v rest := rfl

theorem aerase_cons {α β : Type} [DecidableEq α] (k a : α) (b : β) (rest : List (α × β)) :
    aerase k ((a, b) :: rest) =
      if a = k then aerase k rest else (a, b) :: aerase k rest := rfl

theorem alookup_ainsert_self {α β : Type} [DecidableEq α] (k : α) (v : β) (l : List (α × β)) :
    alookup (ainsert k v l) k = some v := by
  induction l with
  | nil => simp [ainsert, alookup]
  | cons p rest ih =>
    obtain ⟨a, b⟩ := p
    rw [ainsert_cons]
    by_cases h : a = k
    · rw [if_pos h, alookup_cons, if_pos rfl]
    · rw [if_neg h, alookup_cons, if_neg h, ih]

theorem alookup_ainsert_ne {α β : Type} [DecidableEq α] (k k' : α) (v : β) (l : List (α × β))
    (h : k' ≠ k) : alookup (ainsert k v l) k' = alookup l k' := by
  have hkk : ¬ k = k' := fun hh => h hh.symm
  induction l with
  | nil => simp [ainsert, alookup, hkk]
  | cons p rest ih =>
    obtain ⟨a, b⟩ := p
    rw [ainsert_cons]
    by_cases hak : a = k
    · rw [if_pos hak, alookup_cons, alookup_cons, if_neg hkk, if_neg]
      intro hh
      exact hkk (hak ▸ hh)
    · rw [if_neg hak, alookup_cons, alookup_cons]
      by_cases hak' : a = k'
      · rw [if_pos hak', if_pos hak']
      · rw [if_neg hak', if_neg hak', ih]

theorem alookup_aerase_self {α β : Type} [DecidableEq α] (k : α) (l : List (α × β)) :
    alookup (aerase k l) k = none := by
  induction l with
  | nil => simp [aerase, alookup]
  | cons p rest ih =>
    obtain ⟨a, b⟩ := p
    rw [aerase_cons]
    by_cases h : a = k
    · rw [if_pos h]
      exact ih
    · rw [if_neg h, alookup_cons, if_neg h, ih]

theorem alookup_aerase_ne {α β : Type} [DecidableEq α] (k k' : α) (l : List (α × β))
    (h : k' ≠ k) : alookup (aerase k l) k' = alookup l k' := by
  induction l with
  | nil => simp [aerase]
  | cons p rest ih =>
    obtain ⟨a, b⟩ := p
    rw [aerase_cons]
    by_cases hak : a = k
    · rw [if_pos hak, alookup_cons, if_neg, ih]
      intro hh
      exact h (hh ▸ hak)
    · rw [if_neg hak, alookup_cons, alookup_cons, ih]

theorem alookup_eq_none {α β : Type} [DecidableEq α] (l : List (α × β)) (k : α) :
    alookup l k = none ↔ k ∉ l.map Prod.fst := by
  induction l with
  | nil => simp [alookup]
  | cons p rest ih =>
    obtain ⟨a, b⟩ := p
    rw [alookup_cons]
    by_cases h : a = k
    · rw [if_pos h]
      simp [h]
    · rw [if_neg h]
      simp only [List.map_cons, List.mem_cons]
      rw [ih]
      constructor
      · rintro hk (rfl | hmem)
        · exact h rfl
        · exact hk hmem
      · intro hk hmem
        exact hk (Or.inr hmem)

theorem mem_of_alookup {α β : Type} [DecidableEq α] {l : List (α × β)} {k : α} {v : β}
    (h : alookup l k = some v) : k ∈ l.map Prod.fst := by
  by_contra hmem
  rw [← alookup_eq_none l k] at hmem
  rw [hmem] at h
  exact Option.noConfusion h

theorem ainsert_ne_nil {α β : Type} [DecidableEq α] (k : α) (v : β) (l : List (α × β)) :
    ainsert k v l ≠ [] := by
  cases l with
  | nil => simp [ainsert]
  | cons p rest =>
    obtain ⟨a, b⟩ := p
    rw [ainsert_cons]
    by_cases h : a = k
    · rw [if_pos h]
      simp
    · rw [if_neg h]
      simp

theorem mem_keys_ainsert {α β : Type} [DecidableEq α] (k x : α) (v : β) (l : List (α × β)) :
    x ∈ (ainsert k v l).map Prod.fst ↔ x = k ∨ x ∈ l.map Prod.fst := by
  induction l with
  | nil => simp [ainsert]
  | cons p rest ih =>
    obtain ⟨a, b⟩ := p
    rw [ainsert_cons]
    by_cases h : a = k
    · rw [if_pos h]
      subst h
      simp only [List.map_cons, List.mem_cons]
      tauto
    · rw [if_neg h]
      simp only [List.map_cons, List.mem_cons]
      rw [ih]
      tauto

theorem nodup_keys_ainsert {α β : Type} [DecidableEq α] (k : α) (v : β) (l : List (α × β))
    (h : (l.map Prod.fst).Nodup) : ((ainsert k v l).map Prod.fst).Nodup := by
  induction l with
  | nil => simp [ainsert]
  | cons p rest ih =>
    obtain ⟨a, b⟩ := p
    simp only [List.map_cons, List.nodup_cons] at h
    rw [ainsert_cons]
    by_cases hak : a = k
    · rw [if_pos hak]
      subst hak
      simp only [List.map_cons, List.nodup_cons]
      exact h
    · rw [if_neg hak]
      simp only [List.map_cons, List.nodup_cons]
      refine ⟨?_, ih h.2⟩
      rw [mem_keys_ainsert]
      rintro (rfl | hmem)
      · exact hak rfl
      · exact h.1 hmem

theorem aerase_sublist {α β : Type} [DecidableEq α] (k : α) (l : List (α × β)) :
    (aerase k l).Sublist l := by
  induction l with
  | nil => simp [aerase]
  | cons p rest ih =>
    obtain ⟨a, b⟩ := p
    rw [aerase_cons]
    by_cases h : a = k
    · rw [if_pos h]
      exact ih.cons _
    · rw [if_neg h]
      exact ih.cons₂ _

/-! The object directory (`objectstore.go`). A `Timer` is a `time.AfterFunc`
timer with the key/replica its expiry closure captured; `live` means scheduled
and not yet fired or stopped. The store's `data` field embeds the Go field
`data map[string]map[Node]*time.Timer`, with the inner map holding timer
identities; `timers` records every timer ever allocated together with its
current state; `nextId` allocates fresh identities; `now` is the current
instant used to turn a duration into an absolute deadline. -/

/-- Nanoseconds in `time.Second`. -/
def second : Nat := 1000000000

/-- The constant `TIMEOUT = 25 * time.Second` from the source. -/
def TIMEOUT : Nat := 25 * second

/-- The constant `REPUBLISH = 10 * time.Second` from the source. -/
def REPUBLISH : Nat := 10 * second

/-- State of one `time.Timer` created by `time.AfterFunc` in `newTimeout`. -/
structure Timer where
  tkey : String
  treplica : Node
  deadline : Nat
  live : Bool
deriving DecidableEq

/-- The object store (`ObjectStore` in `objectstore.go`). -/
structure ObjectStore where
  data : List (String × List (Node × Nat))
  timers : List (Nat × Timer)
  nextId : Nat
  now : Nat
deriving DecidableEq

/-- Embeds `NewObjectStore`. -/
def NewObjectStore : ObjectStore := ⟨[], [], 0, 0⟩

/-- Embeds `newTimeout`: allocates a fresh `time.AfterFunc` timer expiring
`timeout` from now, whose closure captures `key` and `replica`; returns the
timer's identity. -/
def ObjectStore.newTimeout (s : ObjectStore) (key : String) (replica : Node) (timeout : Nat) :
    Nat × ObjectStore :=
  (s.nextId,
   { s with timers := s.timers ++ [(s.nextId, ⟨key, replica, s.now + timeout, true⟩)],
            nextId := s.nextId + 1 })

/-- Embeds Go's `timer.Reset(d)`: reschedules the timer `d` from now. -/
def ObjectStore.resetTimer (s : ObjectStore) (tid : Nat) (d : Nat) : ObjectStore :=
  { s with timers := s.timers.map (fun p =>
      if p.1 = tid then (p.1, ⟨p.2.tkey, p.2.treplica, s.now + d, true⟩) else p) }

/-- Embeds Go's `timer.Stop()` on the timer with identity `tid`. -/
def stopTimer (timers : List (Nat × Timer)) (tid : Nat) : List (Nat × Timer) :=
  timers.map (fun p =>
    if p.1 = tid then (p.1, ⟨p.2.tkey, p.2.treplica, p.2.deadline, false⟩) else p)

/-- Embeds `Register`: creates the inner map if absent; if the replica is not
yet registered, installs a fresh timer via `newTimeout(key, replica, timeout)`;
otherwise calls `timer.Reset(TIMEOUT)` on the existing timer. Returns `!exists`. -/
def ObjectStore.Register (s : ObjectStore) (key : String) (replica : Node) (timeout : Nat) :
    Bool × ObjectStore :=
  let s1 := if (alookup s.data key).isSome then s
            else { s with data := ainsert key [] s.data }
  let inner := (alookup s1.data key).getD []
  match alookup inner replica with
  | none =>
      let ts := s1.newTimeout key replica timeout
      (true, { ts.2 with data := ainsert key (ainsert replica ts.1 inner) ts.2.data })
  | some tid => (false, s1.resetTimer tid TIMEOUT)

/-- Embeds the body of `RegisterAll`'s inner loop:
`store.data[key][replica] = store.newTimeout(key, replica, timeout)`.
The previous timer for the pair, if any, is only unreferenced — never stopped. -/
def registerOne (s : ObjectStore) (key : String) (timeout : Nat) (replica : Node) : ObjectStore :=
  let inner := (alookup s.data key).getD []
  let ts := s.newTimeout key replica timeout
  { ts.2 with data := ainsert key (ainsert replica ts.1 inner) ts.2.data }

/-- One iteration of `RegisterAll`'s outer loop: creates the key's inner map if
absent, then unconditionally installs a fresh timer for every listed replica. -/
def registerAllKey (s : ObjectStore) (kv : String × List Node) (timeout : Nat) : ObjectStore :=
  let st1 := if (alookup s.data kv.1).isSome then s
             else { s with data := ainsert kv.1 [] s.data }
  kv.2.foldl (fun st2 r => registerOne st2 kv.1 timeout r) st1

/-- Embeds `RegisterAll`: iterates the replica map, running the outer-loop body
`registerAllKey` for each (key, replica list) entry. -/
def ObjectStore.RegisterAll (s : ObjectStore) (replicamap : List (String × List Node))
    (timeout : Nat) : ObjectStore :=
  replicamap.foldl (fun st kv => registerAllKey st kv timeout) s

/-- Embeds `Unregister`: reads `store.data[key][replica]`, then
`delete(store.data[key], replica)` (a no-op when the key is absent, and leaving
the — possibly empty — inner map in place when present); the pair's timer is
not stopped. Returns whether the registration existed. -/
def ObjectStore.Unregister (s : ObjectStore) (key : String) (replica : Node) :
    Bool × ObjectStore :=
  match alookup s.data key with
  | some inner =>
      ((alookup inner replica).isSome,
       { s with data := ainsert key (aerase replica inner) s.data })
  | none => (false, s)

/-- Embeds the package utility `slice`: the keys of an inner node map. -/
def sliceNodes (valmap : List (Node × Nat)) : List Node := valmap.map Prod.fst

/-- Embeds `UnregisterAll`: snapshots `slice(store.data[key])`, then
`delete(store.data, key)`; timers are not stopped. -/
def ObjectStore.UnregisterAll (s : ObjectStore) (key : String) :
    List Node × ObjectStore :=
  (sliceNodes ((alookup s.data key).getD []), { s with data := aerase key s.data })

/-- Embeds `Get`: `slice(store.data[key])`, an empty list when the key is absent. -/
def ObjectStore.Get (s : ObjectStore) (key : String) : List Node :=
  sliceNodes ((alookup s.data key).getD [])

/-- Embeds `GetTransferRegistrations`. The predicate applied per key is
`Hash(key).BetterChoice(remote.Id, local.Id)`; `Hash` and `ID.BetterChoice`
live in the identifier-space component outside the given sources, so they are
taken as parameters `hash` and `bc`. First loop: collect every key the
predicate selects, with `slice` of its inner map. Second loop: delete each
collected key from the directory. -/
def ObjectStore.GetTransferRegistrations (bc : ID → ID → ID → Bool) (hash : String → ID)
    (s : ObjectStore) (localN remoteN : Node) :
    List (String × List Node) × ObjectStore :=
  let transfer := (s.data.filter (fun kv => bc (hash kv.1) remoteN.id localN.id)).map
      (fun kv => (kv.1, sliceNodes kv.2))
  (transfer, { s with data := transfer.foldl (fun d kv => aerase kv.1 d) s.data })

/-- Embeds the firing of the timer with identity `tid`: the timer transitions
to fired (not live), then the `expire` closure from `newTimeout` runs: it
re-checks `store.data[key][replica]`, and if the entry is still present, stops
the currently referenced timer and deletes the entry (leaving the — possibly
empty — inner map in place). -/
def ObjectStore.fireTimer (s : ObjectStore) (tid : Nat) : ObjectStore :=
  match alookup s.timers tid with
  | none => s
  | some t =>
      if t.live then
        let s1 : ObjectStore := { s with timers := stopTimer s.timers tid }
        match alookup s1.data t.tkey with
        | some inner =>
            match alookup inner t.treplica with
            | some cur =>
                { s1 with timers := stopTimer s1.timers cur,
                          data := ainsert t.tkey (aerase t.treplica inner) s1.data }
            | none => s1
        | none => s1
      else s

/-- Number of live timers whose expiry closure targets the given (key, replica)
pair. -/
def liveTimersFor (s : ObjectStore) (key : String) (replica : Node) : Nat :=
  s.timers.countP (fun p =>
    p.2.live && decide (p.2.tkey = key) && decide (p.2.treplica = replica))

/-- The spec's directory invariant: every key present in the directory map has
a non-empty registration set. -/
def NonEmptyInv (s : ObjectStore) : Prop :=
  ∀ key inner, alookup s.data key = some inner → inner ≠ []

/-- The spec's timer invariant: at most one live expiry timer per (key, Node)
pair. -/
def AtMostOneLive (s : ObjectStore) : Prop :=
  ∀ key replica, liveTimersFor s key replica ≤ 1

/-! The client data path (the `Tapestry` facade). The routing layer
(`Publish`, `Lookup`) and the blob transport (`FetchRemoteBlob`) are external
collaborators and appear as function parameters. A readiness signal (the `done`
channel returned by `Publish`) is embedded as an opaque `Nat` identity. -/

/-- Modelled from the spec: the local blob store, whose implementation is not
among the given sources. Its contract (section 6) is
`Put(key, bytes, readySignal)` and `Delete(key) → existed(bool)`; we embed it
as a map from key to the stored bytes tagged with the readiness signal. -/
structure BlobStore where
  blobs : List (String × (Blob × Nat))
deriving DecidableEq

/-- Modelled from the spec: `BlobStore.Put(key, bytes, readySignal)` stores the
bytes under the key, tagged with the readiness signal. -/
def BlobStore.Put (bs : BlobStore) (key : String) (value : Blob) (done : Nat) : BlobStore :=
  ⟨ainsert key (value, done) bs.blobs⟩

/-- Modelled from the spec: `BlobStore.Delete(key)` removes the key from the
local blob store and returns whether it existed there. -/
def BlobStore.Delete (bs : BlobStore) (key : String) : Bool × BlobStore :=
  ((alookup bs.blobs key).isSome, ⟨aerase key bs.blobs⟩)

/-- The state a `Tapestry` facade owns: its local blob store and its local
node's object directory. -/
structure TapestryState where
  blobstore : BlobStore
  objectstore : ObjectStore
deriving DecidableEq

/-- Embeds `Tapestry.Store`: calls the routing layer's `Publish(key)`; on error
returns that error having written nothing; on success writes the blob into the
local store tagged with the returned readiness signal `done`. -/
def TapestryState.Store {ε : Type} (t : TapestryState)
    (publish : String → Except ε Nat) (key : String) (value : Blob) :
    Option ε × TapestryState :=
  match publish key with
  | Except.error e => (some e, t)
  | Except.ok done => (none, { t with blobstore := t.blobstore.Put key value done })

/-- Embeds `Tapestry.Remove`: `return tapestry.blobstore.Delete(key)` — the one
and only effect is on the local blob store. -/
def TapestryState.Remove (t : TapestryState) (key : String) : Bool × TapestryState :=
  let r := t.blobstore.Delete key
  (r.1, { t with blobstore := r.2 })

/-- The errors `Tapestry.Get` can return: the error from a failed `Lookup`,
the "No replicas returned for key %v" error, or the final
"Error contacting replicas, %v: %v" error carrying the replica list and every
collected fetch error. -/
inductive GetError (ε : Type) where
  | lookupFailed (e : ε)
  | noReplicas (key : String)
  | allFailed (replicas : List Node) (errs : List ε)
deriving DecidableEq

/-- Embeds the replica loop of `Tapestry.Get`: for each replica in order,
`blob, err := FetchRemoteBlob(replica, key)`; a non-nil `err` is appended to
`errs`; a non-nil `blob` is returned immediately; when the candidates are
exhausted, fails with the aggregate of `errs`. `all` is the full replica list
used in the final error message. -/
def getLoop {ε : Type} (fetch : Node → String → Option Blob × Option ε) (key : String)
    (all : List Node) : List Node → List ε → Except (GetError ε) Blob
  | [], errs => Except.error (GetError.allFailed all errs)
  | replica :: rest, errs =>
      let fr := fetch replica key
      let errs2 := match fr.2 with
        | some e => errs ++ [e]
        | none => errs
      match fr.1 with
      | some blob => Except.ok blob
      | none => getLoop fetch key all rest errs2

/-- Embeds `Tapestry.Get`: `Lookup`, error if it fails; error if it returns
zero replicas; otherwise the replica loop. -/
def TapestryGet {ε : Type} (lookup : String → Except ε (List Node))
    (fetch : Node → String → Option Blob × Option ε) (key : String) :
    Except (GetError ε) Blob :=
  match lookup key with
  | Except.error e => Except.error (GetError.lookupFailed e)
  | Except.ok replicas =>
      if replicas = [] then Except.error (GetError.noReplicas key)
      else getLoop fetch key replicas replicas []

/-! Concrete values used by witnesses and counterexamples. -/

/-- A concrete node used in witnesses and counterexamples. -/
def nodeA : Node := ⟨1, "addr1"⟩

/-- A second concrete node used in witnesses. -/
def nodeB : Node := ⟨2, "addr2"⟩

/-- A concrete tapestry state with empty blob store and fresh directory. -/
def tState0 : TapestryState := ⟨⟨[]⟩, NewObjectStore⟩

/-- A concrete publish function that always succeeds with signal 7. -/
def pubOkW : String → Except String Nat := fun _ => Except.ok 7

/-- A concrete publish function that always fails. -/
def pubErrW : String → Except String Nat := fun _ => Except.error "no root"

/-- C1: the claim fails on the code. With ("k", nodeA) already registered
(fresh registration at now = 0 with timeout 5 schedules the deadline at 5), a
second `Register("k", nodeA, 5)` is a refresh, and the code executes
`timer.Reset(TIMEOUT)`: the single timer's deadline becomes `TIMEOUT`
(25 seconds), not the call's timeout argument 5 — contradicting both the claim
and the function's own comment "Times out after the specified duration". The
no-duplicate part of the claim does hold: one entry, one timer. -/
theorem register_refresh_resets_to_global_timeout :
    ((NewObjectStore.Register "k" nodeA 5).2).timers = [(0, ⟨"k", nodeA, 5, true⟩)] ∧
    (((NewObjectStore.Register "k" nodeA 5).2).Register "k" nodeA 5).1 = false ∧
    ((((NewObjectStore.Register "k" nodeA 5).2).Register "k" nodeA 5).2).timers =
      [(0, ⟨"k", nodeA, TIMEOUT, true⟩)] ∧
    TIMEOUT ≠ 5 := by
  refine ⟨by decide, by decide, by decide, by decide⟩

/-- C4 counterexample: after `Register("k", nodeA, TIMEOUT)` followed by
`Unregister("k", nodeA)`, the key "k" is still present in the directory map
with an empty registration set — `Unregister` deletes only the inner binding
and never the key entry, so the non-empty-set invariant fails. -/
theorem unregister_leaves_empty_entry :
    alookup ((((NewObjectStore.Register "k" nodeA TIMEOUT).2).Unregister "k" nodeA).2).data "k"
      = some [] ∧
    ¬ NonEmptyInv (((NewObjectStore.Register "k" nodeA TIMEOUT).2).Unregister "k" nodeA).2 := by
  constructor
  · decide
  · intro h
    exact h "k" [] (by decide) rfl

/-- C5 counterexample: after `Register("k", nodeA, TIMEOUT)` followed by
`RegisterAll({"k": [nodeA]}, TIMEOUT)`, the pair ("k", nodeA) has two live
timers — `RegisterAll` overwrites only the directory's timer reference and
never stops the pre-existing timer. -/
theorem registerAll_leaves_stale_live_timer :
    liveTimersFor
      (((NewObjectStore.Register "k" nodeA TIMEOUT).2).RegisterAll [("k", [nodeA])] TIMEOUT)
      "k" nodeA = 2 ∧
    ¬ AtMostOneLive
      (((NewObjectStore.Register "k" nodeA TIMEOUT).2).RegisterAll [("k", [nodeA])] TIMEOUT) := by
  constructor
  · decide
  · intro h
    have h2 := h "k" nodeA
    have h1 : liveTimersFor
        (((NewObjectStore.Register "k" nodeA TIMEOUT).2).RegisterAll [("k", [nodeA])] TIMEOUT)
        "k" nodeA = 2 := by decide
    omega

/-- C7: `UnregisterAll(key)` returns exactly the advertisers registered for
`key` at the time of the call (the same list `Get(key)` would have returned),
and afterwards the key is gone from the directory, so `Get(key)` returns the
empty list. -/
theorem unregisterAll_removes_all (s : ObjectStore) (key : String) :
    (s.UnregisterAll key).1 = s.Get key ∧
    ((s.UnregisterAll key).2).Get key = [] ∧
    alookup ((s.UnregisterAll key).2).data key = none := by
  refine ⟨rfl, ?_, ?_⟩
  · show sliceNodes ((alookup (aerase key s.data) key).getD []) = []
    rw [alookup_aerase_self]
    rfl
  · exact alookup_aerase_self key s.data

/-- C8: if the routing layer's `Publish(key)` errors, `Store(key, value)`
returns that very error with the whole local state unchanged (nothing written);
if `Publish` succeeds with readiness signal `d`, the blob is written into the
local store tagged with `d` and no error is returned. -/
theorem store_publish_spec {ε : Type} (t : TapestryState) (publish : String → Except ε Nat)
    (key : String) (value : Blob) :
    (∀ e, publish key = Except.error e → t.Store publish key value = (some e, t)) ∧
    (∀ d, publish key = Except.ok d →
        t.Store publish key value = (none, { t with blobstore := t.blobstore.Put key value d }) ∧
        alookup (((t.Store publish key value).2).blobstore).blobs key = some (value, d)) := by
  constructor
  · intro e he
    simp [TapestryState.Store, he]
  · intro d hd
    refine ⟨by simp [TapestryState.Store, hd], ?_⟩
    simp [TapestryState.Store, hd, BlobStore.Put, alookup_ainsert_self]

/-- Witness for C8 at concrete inputs: a failing publish surfaces the error and
leaves the state untouched; a succeeding publish stores the blob tagged with
the signal. -/
theorem store_publish_spec_witness :
    tState0.Store pubErrW "k" [1] = (some "no root", tState0) ∧
    alookup (((tState0.Store pubOkW "k" [1]).2).blobstore).blobs "k" = some ([1], 7) :=
  ⟨(store_publish_spec tState0 pubErrW "k" [1]).1 "no root" rfl,
   ((store_publish_spec tState0 pubOkW "k" [1]).2 7 rfl).2⟩

/-- C9: `Remove(key)` returns whether the key existed in the local blob store,
removes it from the local blob store, and leaves the directory untouched — the
source's `Remove` is exactly `return tapestry.blobstore.Delete(key)`, with no
directory call and no RPC. -/
theorem remove_local_only (t : TapestryState) (key : String) :
    (t.Remove key).1 = (alookup t.blobstore.blobs key).isSome ∧
    ((t.Remove key).2).objectstore = t.objectstore ∧
    ((t.Remove key).2).blobstore.blobs = aerase key t.blobstore.blobs :=
  ⟨rfl, rfl, rfl⟩

/-- Replica-loop helper: if every replica before `r` yields no blob and `r`
yields blob `b`, the loop returns `b` immediately, whatever the accumulated
errors and whatever `fetch` would do on the replicas after `r`. -/
theorem getLoop_first_blob {ε : Type} (fetch : Node → String → Option Blob × Option ε)
    (key : String) (all : List Node) (pre : List Node) (r : Node) (post : List Node)
    (b : Blob) (hpre : ∀ r' ∈ pre, (fetch r' key).1 = none)
    (hr : (fetch r key).1 = some b) :
    ∀ errs, getLoop fetch key all (pre ++ r :: post) errs = Except.ok b := by
  induction pre with
  | nil =>
      intro errs
      simp [getLoop, hr]
  | cons x xs ih =>
      intro errs
      have hx : (fetch x key).1 = none := hpre x (List.mem_cons_self x xs)
      simp only [List.cons_append, getLoop, hx]
      exact ih (fun r' h => hpre r' (List.mem_cons_of_mem x h)) _

/-- Replica-loop helper: if no replica yields a blob, the loop fails with the
aggregate of the already-accumulated errors followed by every fetch error of
the remaining replicas, in order. -/
theorem getLoop_all_fail {ε : Type} (fetch : Node → String → Option Blob × Option ε)
    (key : String) (all : List Node) :
    ∀ (rs : List Node) (errs : List ε), (∀ r ∈ rs, (fetch r key).1 = none) →
      getLoop fetch key all rs errs =
        Except.error (GetError.allFailed all
          (errs ++ rs.filterMap (fun r => (fetch r key).2))) := by
  intro rs
  induction rs with
  | nil =>
      intro errs h
      simp [getLoop]
  | cons x xs ih =>
      intro errs h
      have hx : (fetch x key).1 = none := h x (List.mem_cons_self x xs)
      have hxs : ∀ r ∈ xs, (fetch r key).1 = none :=
        fun r hr => h r (List.mem_cons_of_mem x hr)
      cases he : (fetch x key).2 with
      | none =>
          simp only [getLoop, hx, he]
          rw [ih _ hxs]
          simp [List.filterMap_cons, he]
      | some e =>
          simp only [getLoop, hx, he]
          rw [ih _ hxs]
          simp [List.filterMap_cons, he]

/-- C2: `Get(key)` propagates a failed `Lookup` as an error; errors when
`Lookup` returns zero candidates; iterates the candidates in the order
supplied, returning the bytes of the first replica whose fetch yields a
non-nil blob — nothing about the replicas after it can change the result,
since the hypotheses constrain `fetch` only on the prefix; and when no
candidate yields data it fails with a single error aggregating every
individual fetch error in order, none swallowed. -/
theorem tapestry_get_spec {ε : Type} (lookup : String → Except ε (List Node))
    (fetch : Node → String → Option Blob × Option ε) (key : String) :
    (∀ e, lookup key = Except.error e →
        TapestryGet lookup fetch key = Except.error (GetError.lookupFailed e)) ∧
    (lookup key = Except.ok [] →
        TapestryGet lookup fetch key = Except.error (GetError.noReplicas key)) ∧
    (∀ pre r post b, lookup key = Except.ok (pre ++ r :: post) →
        (∀ r' ∈ pre, (fetch r' key).1 = none) → (fetch r key).1 = some b →
        TapestryGet lookup fetch key = Except.ok b) ∧
    (∀ rs, lookup key = Except.ok rs → rs ≠ [] →
        (∀ r ∈ rs, (fetch r key).1 = none) →
        TapestryGet lookup fetch key =
          Except.error (GetError.allFailed rs
            (rs.filterMap (fun r => (fetch r key).2)))) := by
  refine ⟨?_, ?_, ?_, ?_⟩
  · intro e he
    simp [TapestryGet, he]
  · intro h
    simp [TapestryGet, h]
  · intro pre r post b hl hpre hb
    have hne : pre ++ r :: post ≠ [] := by simp
    simp only [TapestryGet, hl, if_neg hne]
    exact getLoop_first_blob fetch key _ pre r post b hpre hb []
  · intro rs hl hne hall
    simp only [TapestryGet, hl, if_neg hne]
    have h := getLoop_all_fail fetch key rs rs [] hall
    simpa using h

/-- A concrete lookup returning two candidates. -/
def lookupW : String → Except String (List Node) := fun _ => Except.ok [nodeA, nodeB]

/-- A concrete lookup that fails. -/
def lookupErrW : String → Except String (List Node) := fun _ => Except.error "lookup down"

/-- A concrete fetch: nodeA errors with no blob, nodeB returns a blob. -/
def fetchW : Node → String → Option Blob × Option String := fun n _ =>
  if n = nodeA then (none, some "errA") else (some [7], none)

/-- A concrete fetch where every node errors with no blob. -/
def fetchFailW : Node → String → Option Blob × Option String := fun n _ =>
  if n = nodeA then (none, some "errA") else (none, some "errB")

/-- Witness for C2 at concrete inputs: a failed lookup propagates; the first
replica with a blob (here the second candidate) wins; an all-fail run
aggregates both errors. -/
theorem tapestry_get_spec_witness :
    TapestryGet lookupErrW fetchW "k" = Except.error (GetError.lookupFailed "lookup down") ∧
    TapestryGet lookupW fetchW "k" = Except.ok [7] ∧
    TapestryGet lookupW fetchFailW "k" =
      Except.error (GetError.allFailed [nodeA, nodeB]
        ([nodeA, nodeB].filterMap (fun r => (fetchFailW r "k").2))) :=
  ⟨(tapestry_get_spec lookupErrW fetchW "k").1 "lookup down" rfl,
   (tapestry_get_spec lookupW fetchW "k").2.2.1 [nodeA] nodeB [] [7] rfl (by decide) (by decide),
   (tapestry_get_spec lookupW fetchFailW "k").2.2.2 [nodeA, nodeB] rfl (by decide) (by decide)⟩

/-- C10: when `FetchRemoteBlob` returns both a non-nil error and a non-nil blob
for the first replica that yields data, `Get` still returns that blob's bytes
with no error — the fetch error is appended to the aggregation list but then
masked by the same call's data, so the caller sees success even though every
contacted replica (the no-blob prefix and the winning one) reported an error. -/
theorem get_success_masks_fetch_errors {ε : Type} (lookup : String → Except ε (List Node))
    (fetch : Node → String → Option Blob × Option ε) (key : String)
    (pre : List Node) (r : Node) (post : List Node) (b : Blob) (e : ε)
    (hl : lookup key = Except.ok (pre ++ r :: post))
    (hpre : ∀ r' ∈ pre, (fetch r' key).1 = none ∧ (fetch r' key).2 ≠ none)
    (hr : fetch r key = (some b, some e)) :
    TapestryGet lookup fetch key = Except.ok b := by
  have hne : pre ++ r :: post ≠ [] := by simp
  simp only [TapestryGet, hl, if_neg hne]
  exact getLoop_first_blob fetch key _ pre r post b (fun r' h => (hpre r' h).1)
    (by rw [hr]) []

/-- A concrete fetch returning a blob and an error simultaneously. -/
def fetchMaskW : Node → String → Option Blob × Option String :=
  fun _ _ => (some [9], some "late")

/-- Witness for C10 at a concrete input: the only contacted replica reports an
error yet also returns a blob; `Get` succeeds with the blob. -/
theorem get_success_masks_fetch_errors_witness :
    TapestryGet lookupW fetchMaskW "k" = Except.ok [9] :=
  get_success_masks_fetch_errors lookupW fetchMaskW "k" [] nodeA [nodeB] [9] "late" rfl
    (by simp) rfl

/-- Deleting a batch of keys from an association list: a key in the batch looks
up to nothing afterwards; any other key is untouched. -/
theorem alookup_foldl_aerase {α β γ : Type} [DecidableEq α] (t : List (α × γ))
    (d : List (α × β)) (k : α) :
    alookup (t.foldl (fun dd kv => aerase kv.1 dd) d) k =
      if k ∈ t.map Prod.fst then none else alookup d k := by
  induction t generalizing d with
  | nil => simp
  | cons p rest ih =>
      simp only [List.foldl_cons, List.map_cons, List.mem_cons]
      rw [ih]
      by_cases h1 : k ∈ rest.map Prod.fst
      · simp [h1]
      · by_cases h2 : k = p.1
        · subst h2
          simp [h1, alookup_aerase_self]
        · simp [h1, h2, alookup_aerase_ne p.1 k d h2]

/-- Looking up a key the filter predicate selects, inside the filtered and
per-entry-mapped copy of an association list. -/
theorem alookup_filtermap_pos {α β γ : Type} [DecidableEq α] (p : α → Bool) (f : β → γ)
    (l : List (α × β)) (k : α) (hk : p k = true) :
    alookup ((l.filter (fun kv => p kv.1)).map (fun kv => (kv.1, f kv.2))) k
      = (alookup l k).map f := by
  induction l with
  | nil => simp [alookup]
  | cons q rest ih =>
      obtain ⟨a, b⟩ := q
      by_cases hak : a = k
      · subst hak
        rw [List.filter_cons_of_pos (by simpa using hk), List.map_cons, alookup_cons,
          if_pos rfl, alookup_cons, if_pos rfl]
        rfl
      · by_cases hpa : p a = true
        · rw [List.filter_cons_of_pos (by simpa using hpa), List.map_cons, alookup_cons,
            if_neg hak, alookup_cons, if_neg hak, ih]
        · rw [List.filter_cons_of_neg (by simpa using hpa), alookup_cons, if_neg hak, ih]

/-- Looking up a key the filter predicate rejects, inside the filtered and
per-entry-mapped copy of an association list, finds nothing. -/
theorem alookup_filtermap_neg {α β γ : Type} [DecidableEq α] (p : α → Bool) (f : β → γ)
    (l : List (α × β)) (k : α) (hk : p k = false) :
    alookup ((l.filter (fun kv => p kv.1)).map (fun kv => (kv.1, f kv.2))) k = none := by
  induction l with
  | nil => simp [alookup]
  | cons q rest ih =>
      obtain ⟨a, b⟩ := q
      by_cases hpa : p a = true
      · have hak : a ≠ k := by
          intro h
          rw [h, hk] at hpa
          exact Bool.noConfusion hpa
        rw [List.filter_cons_of_pos (by simpa using hpa), List.map_cons, alookup_cons,
          if_neg hak, ih]
      · rw [List.filter_cons_of_neg (by simpa using hpa), ih]

/-- Membership in the keys of the filtered and per-entry-mapped copy of an
association list. -/
theorem mem_keys_filtermap {α β γ : Type} [DecidableEq α] (p : α → Bool) (f : β → γ)
    (l : List (α × β)) (k : α) :
    (k ∈ ((l.filter (fun kv => p kv.1)).map (fun kv => (kv.1, f kv.2))).map Prod.fst) ↔
      (p k = true ∧ k ∈ l.map Prod.fst) := by
  induction l with
  | nil => simp
  | cons q rest ih =>
      obtain ⟨a, b⟩ := q
      by_cases hpa : p a = true
      · rw [List.filter_cons_of_pos (by simpa using hpa)]
        simp only [List.map_cons, List.mem_cons]
        rw [ih]
        constructor
        · rintro (rfl | ⟨hpk, hmem⟩)
          · exact ⟨hpa, Or.inl rfl⟩
          · exact ⟨hpk, Or.inr hmem⟩
        · rintro ⟨hpk, (rfl | hmem)⟩
          · exact Or.inl rfl
          · exact Or.inr ⟨hpk, hmem⟩
      · rw [List.filter_cons_of_neg (by simpa using hpa)]
        rw [ih]
        simp only [List.map_cons, List.mem_cons]
        constructor
        · rintro ⟨hpk, hmem⟩
          exact ⟨hpk, Or.inr hmem⟩
        · rintro ⟨hpk, (rfl | hmem)⟩
          · exact absurd hpk hpa
          · exact ⟨hpk, hmem⟩


/-- C3: `GetTransferRegistrations(local, candidate)` partitions the directory.
Every key whose hashed identifier the ownership predicate judges a better match
for `candidate` (the remote) than for `local` is removed from the directory and
appears in the returned batch with its full replica set; every other key is
untouched — its directory entry is unchanged, it is still retrievable via
`Get`, and it is absent from the batch. -/
theorem transfer_partitions_directory (bc : ID → ID → ID → Bool) (hash : String → ID)
    (s : ObjectStore) (localN remoteN : Node) (key : String) :
    (bc (hash key) remoteN.id localN.id = true →
        alookup ((ObjectStore.GetTransferRegistrations bc hash s localN remoteN).2).data key
          = none ∧
        alookup ((ObjectStore.GetTransferRegistrations bc hash s localN remoteN).1) key
          = (alookup s.data key).map sliceNodes) ∧
    (bc (hash key) remoteN.id localN.id = false →
        alookup ((ObjectStore.GetTransferRegistrations bc hash s localN remoteN).2).data key
          = alookup s.data key ∧
        ((ObjectStore.GetTransferRegistrations bc hash s localN remoteN).2).Get key
          = s.Get key ∧
        alookup ((ObjectStore.GetTransferRegistrations bc hash s localN remoteN).1) key
          = none) := by
  have hkeys : (key ∈ ((s.data.filter (fun kv => bc (hash kv.1) remoteN.id localN.id)).map
        (fun kv => (kv.1, sliceNodes kv.2))).map Prod.fst) ↔
      (bc (hash key) remoteN.id localN.id = true ∧ key ∈ s.data.map Prod.fst) :=
    mem_keys_filtermap (fun x => bc (hash x) remoteN.id localN.id) sliceNodes s.data key
  constructor
  · intro hp
    constructor
    · show alookup
        (((s.data.filter (fun kv => bc (hash kv.1) remoteN.id localN.id)).map
          (fun kv => (kv.1, sliceNodes kv.2))).foldl (fun d kv => aerase kv.1 d) s.data)
        key = none
      rw [alookup_foldl_aerase]
      by_cases hmem : key ∈ s.data.map Prod.fst
      · rw [if_pos (hkeys.2 ⟨hp, hmem⟩)]
      · rw [if_neg (fun h => hmem (hkeys.1 h).2), (alookup_eq_none s.data key).2 hmem]
    · show alookup ((s.data.filter (fun kv => bc (hash kv.1) remoteN.id localN.id)).map
          (fun kv => (kv.1, sliceNodes kv.2))) key = (alookup s.data key).map sliceNodes
      exact alookup_filtermap_pos (fun x => bc (hash x) remoteN.id localN.id) sliceNodes
        s.data key hp
  · intro hp
    have hnot : ¬ (key ∈ ((s.data.filter (fun kv => bc (hash kv.1) remoteN.id localN.id)).map
        (fun kv => (kv.1, sliceNodes kv.2))).map Prod.fst) := by
      intro h
      have h1 := (hkeys.1 h).1
      rw [hp] at h1
      exact Bool.noConfusion h1
    have hdata : alookup
        (((s.data.filter (fun kv => bc (hash kv.1) remoteN.id localN.id)).map
          (fun kv => (kv.1, sliceNodes kv.2))).foldl (fun d kv => aerase kv.1 d) s.data)
        key = alookup s.data key := by
      rw [alookup_foldl_aerase, if_neg hnot]
    refine ⟨hdata, ?_, ?_⟩
    · show sliceNodes ((alookup
          (((s.data.filter (fun kv => bc (hash kv.1) remoteN.id localN.id)).map
            (fun kv => (kv.1, sliceNodes kv.2))).foldl (fun d kv => aerase kv.1 d) s.data)
          key).getD []) = sliceNodes ((alookup s.data key).getD [])
      rw [hdata]
    · show alookup ((s.data.filter (fun kv => bc (hash kv.1) remoteN.id localN.id)).map
          (fun kv => (kv.1, sliceNodes kv.2))) key = none
      exact alookup_filtermap_neg (fun x => bc (hash x) remoteN.id localN.id) sliceNodes
        s.data key hp

/-- A concrete ownership predicate for the transfer witness: favors the remote
exactly when the hashed identifier is even. -/
def bcW : ID → ID → ID → Bool := fun h _ _ => decide (h % 2 = 0)

/-- A concrete hash for the transfer witness: the key's length. -/
def hashW : String → ID := fun k => k.length

/-- A concrete two-key directory for the transfer witness. -/
def sW : ObjectStore := ⟨[("a", [(nodeA, 0)]), ("bb", [(nodeB, 1)])], [], 2, 0⟩

/-- Witness for C3 at concrete inputs: key "bb" (hash 2, even — judged better
for the candidate) is removed from the directory and appears in the batch with
its replica set; key "a" (hash 1, odd) is untouched, still retrievable via Get,
and absent from the batch. -/
theorem transfer_partitions_directory_witness :
    (alookup ((ObjectStore.GetTransferRegistrations bcW hashW sW nodeA nodeB).2).data "bb"
       = none ∧
     alookup ((ObjectStore.GetTransferRegistrations bcW hashW sW nodeA nodeB).1) "bb"
       = (alookup sW.data "bb").map sliceNodes) ∧
    (alookup ((ObjectStore.GetTransferRegistrations bcW hashW sW nodeA nodeB).2).data "a"
       = alookup sW.data "a" ∧
     ((ObjectStore.GetTransferRegistrations bcW hashW sW nodeA nodeB).2).Get "a" = sW.Get "a" ∧
     alookup ((ObjectStore.GetTransferRegistrations bcW hashW sW nodeA nodeB).1) "a" = none) :=
  ⟨(transfer_partitions_directory bcW hashW sW nodeA nodeB "bb").1 (by decide),
   (transfer_partitions_directory bcW hashW sW nodeA nodeB "a").2 (by decide)⟩

/-- `Register` on an already-registered pair is a refresh: it returns `false`
and only resets the pair's existing timer — to `TIMEOUT`, not to the call's
timeout argument. -/
theorem Register_refresh {s : ObjectStore} {k : String} {n : Node} {tmo : Nat}
    {m : List (Node × Nat)} {tid : Nat}
    (hd : alookup s.data k = some m) (him : alookup m n = some tid) :
    s.Register k n tmo = (false, s.resetTimer tid TIMEOUT) := by
  simp [ObjectStore.Register, hd, him]

/-- `Register` on a key that is present but lacks the replica: allocates a
fresh timer and binds the replica to it. -/
theorem Register_fresh_present {s : ObjectStore} {k : String} {n : Node} {tmo : Nat}
    {m : List (Node × Nat)}
    (hd : alookup s.data k = some m) (him : alookup m n = none) :
    s.Register k n tmo =
      (true, { data := ainsert k (ainsert n s.nextId m) s.data,
               timers := s.timers ++ [(s.nextId, ⟨k, n, s.now + tmo, true⟩)],
               nextId := s.nextId + 1,
               now := s.now }) := by
  simp [ObjectStore.Register, ObjectStore.newTimeout, hd, him]

/-- `Register` on an absent key: creates the inner map, allocates a fresh
timer and binds the replica to it. -/
theorem Register_fresh_absent {s : ObjectStore} {k : String} {n : Node} {tmo : Nat}
    (hd : alookup s.data k = none) :
    s.Register k n tmo =
      (true, { data := ainsert k (ainsert n s.nextId []) (ainsert k [] s.data),
               timers := s.timers ++ [(s.nextId, ⟨k, n, s.now + tmo, true⟩)],
               nextId := s.nextId + 1,
               now := s.now }) := by
  simp [ObjectStore.Register, ObjectStore.newTimeout, hd, alookup_ainsert_self, alookup]

/-- `resetTimer` touches only the timer list; reads of the directory map are
unaffected. -/
theorem Get_resetTimer (s : ObjectStore) (tid d : Nat) (k : String) :
    (s.resetTimer tid d).Get k = s.Get k := rfl

/-- `Get` on a present key returns the inner map's node keys. -/
theorem Get_of_alookup {s : ObjectStore} {k : String} {m : List (Node × Nat)}
    (hd : alookup s.data k = some m) : s.Get k = m.map Prod.fst := by
  simp [ObjectStore.Get, hd, sliceNodes]

/-- C6: repeated `Register(K, N, t)` calls before expiry are idempotent on
directory contents — the first call returns `true` exactly when (K, N) was not
already registered; a repeat call returns `false` (refresh) and leaves the
directory map unchanged, so no duplicate entry for (K, N) ever appears and
`Get(K)` (whose inner map has unique node keys) never contains N twice. -/
theorem register_idempotent_refresh (s : ObjectStore) (k : String) (n : Node) (tmo : Nat)
    (hinner : (((alookup s.data k).getD []).map Prod.fst).Nodup) :
    ((s.Register k n tmo).1 = true ↔ n ∉ s.Get k) ∧
    (((s.Register k n tmo).2).Register k n tmo).1 = false ∧
    ((((s.Register k n tmo).2).Register k n tmo).2).data = ((s.Register k n tmo).2).data ∧
    n ∈ ((s.Register k n tmo).2).Get k ∧
    (((s.Register k n tmo).2).Get k).Nodup := by
  cases hd : alookup s.data k with
  | none =>
      have hGet : s.Get k = [] := by simp [ObjectStore.Get, hd, sliceNodes]
      rw [Register_fresh_absent hd]
      dsimp only
      have hd2 : alookup (ainsert k (ainsert n s.nextId []) (ainsert k [] s.data)) k
          = some (ainsert n s.nextId []) := alookup_ainsert_self k _ _
      have him2 : alookup (ainsert n s.nextId ([] : List (Node × Nat))) n = some s.nextId :=
        alookup_ainsert_self n _ _
      rw [Register_refresh hd2 him2]
      refine ⟨by simp [hGet], rfl, rfl, ?_, ?_⟩
      · show n ∈ sliceNodes
          ((alookup (ainsert k (ainsert n s.nextId []) (ainsert k [] s.data)) k).getD [])
        rw [hd2]
        exact (mem_keys_ainsert n n s.nextId []).2 (Or.inl rfl)
      · show (sliceNodes
          ((alookup (ainsert k (ainsert n s.nextId []) (ainsert k [] s.data)) k).getD [])).Nodup
        rw [hd2]
        exact nodup_keys_ainsert n s.nextId [] (by simp)
  | some m =>
      have hm : ((alookup s.data k).getD []) = m := by rw [hd]; rfl
      rw [hm] at hinner
      have hGet : s.Get k = m.map Prod.fst := Get_of_alookup hd
      cases him : alookup m n with
      | none =>
          rw [Register_fresh_present hd him]
          dsimp only
          have hd2 : alookup (ainsert k (ainsert n s.nextId m) s.data) k
              = some (ainsert n s.nextId m) := alookup_ainsert_self k _ _
          have him2 : alookup (ainsert n s.nextId m) n = some s.nextId :=
            alookup_ainsert_self n _ _
          rw [Register_refresh hd2 him2]
          refine ⟨?_, rfl, rfl, ?_, ?_⟩
          · rw [hGet]
            simp only [true_iff]
            rw [← alookup_eq_none]
            exact him
          · show n ∈ sliceNodes
              ((alookup (ainsert k (ainsert n s.nextId m) s.data) k).getD [])
            rw [hd2]
            exact (mem_keys_ainsert n n s.nextId m).2 (Or.inl rfl)
          · show (sliceNodes
              ((alookup (ainsert k (ainsert n s.nextId m) s.data) k).getD [])).Nodup
            rw [hd2]
            exact nodup_keys_ainsert n s.nextId m hinner
      | some tid =>
          rw [Register_refresh hd him]
          dsimp only
          have hd2 : alookup ((s.resetTimer tid TIMEOUT).data) k = some m := hd
          rw [Register_refresh hd2 him]
          have hmem : n ∈ m.map Prod.fst := mem_of_alookup him
          refine ⟨?_, rfl, rfl, ?_, ?_⟩
          · rw [hGet]
            constructor
            · intro h
              exact absurd h (by simp)
            · intro h
              exact absurd hmem h
          · rw [Get_resetTimer, hGet]
            exact hmem
          · rw [Get_resetTimer, hGet]
            exact hinner

/-- Witness for C6 at a concrete input: registering ("k", nodeA) in the fresh
directory returns true; the repeat call returns false and leaves the directory
map unchanged; Get lists nodeA exactly once. -/
theorem register_idempotent_refresh_witness :
    ((NewObjectStore.Register "k" nodeA TIMEOUT).1 = true ↔
        nodeA ∉ NewObjectStore.Get "k") ∧
    (((NewObjectStore.Register "k" nodeA TIMEOUT).2).Register "k" nodeA TIMEOUT).1 = false ∧
    ((((NewObjectStore.Register "k" nodeA TIMEOUT).2).Register "k" nodeA TIMEOUT).2).data
      = ((NewObjectStore.Register "k" nodeA TIMEOUT).2).data ∧
    nodeA ∈ ((NewObjectStore.Register "k" nodeA TIMEOUT).2).Get "k" ∧
    (((NewObjectStore.Register "k" nodeA TIMEOUT).2).Get "k").Nodup :=
  register_idempotent_refresh NewObjectStore "k" nodeA TIMEOUT (by decide)

/-- The directory map after `registerOne`, spelled out. -/
theorem registerOne_data (s : ObjectStore) (k : String) (tmo : Nat) (r : Node) :
    (registerOne s k tmo r).data =
      ainsert k (ainsert r s.nextId ((alookup s.data k).getD [])) s.data := rfl

/-- `Unregister` on an absent key does nothing and reports `false`. -/
theorem Unregister_absent {s : ObjectStore} {k : String} {n : Node}
    (hd : alookup s.data k = none) : s.Unregister k n = (false, s) := by
  simp [ObjectStore.Unregister, hd]

/-- `Unregister` on a present key deletes the inner binding only, keeping the
key entry (possibly now empty); it reports whether the binding existed. -/
theorem Unregister_present {s : ObjectStore} {k : String} {n : Node} {m : List (Node × Nat)}
    (hd : alookup s.data k = some m) :
    s.Unregister k n =
      ((alookup m n).isSome, { s with data := ainsert k (aerase n m) s.data }) := by
  simp [ObjectStore.Unregister, hd]

/-- `registerOne` restores the non-empty-set invariant at its own key and
needs it only elsewhere. -/
theorem NonEmptyInv_registerOne_except (s : ObjectStore) (k : String) (tmo : Nat) (r : Node)
    (hexc : ∀ key inner, key ≠ k → alookup s.data key = some inner → inner ≠ []) :
    NonEmptyInv (registerOne s k tmo r) := by
  intro key inner h
  rw [registerOne_data] at h
  by_cases hk : key = k
  · subst hk
    rw [alookup_ainsert_self] at h
    injection h with h2
    exact h2 ▸ ainsert_ne_nil r s.nextId ((alookup s.data key).getD [])
  · rw [alookup_ainsert_ne k key _ _ hk] at h
    exact hexc key inner hk h

/-- `registerOne` preserves the non-empty-set invariant. -/
theorem NonEmptyInv_registerOne (s : ObjectStore) (k : String) (tmo : Nat) (r : Node)
    (hinv : NonEmptyInv s) : NonEmptyInv (registerOne s k tmo r) :=
  NonEmptyInv_registerOne_except s k tmo r (fun key inner _ h => hinv key inner h)

/-- Folding `registerOne` over a replica list preserves the non-empty-set
invariant. -/
theorem NonEmptyInv_foldRegisterOne (k : String) (tmo : Nat) :
    ∀ (rs : List Node) (s : ObjectStore), NonEmptyInv s →
      NonEmptyInv (rs.foldl (fun st2 r => registerOne st2 k tmo r) s) := by
  intro rs
  induction rs with
  | nil => intro s h; exact h
  | cons r rs' ih => intro s h; exact ih _ (NonEmptyInv_registerOne s k tmo r h)

/-- `RegisterAll`'s outer-loop body preserves the non-empty-set invariant
whenever the entry's replica list is non-empty. -/
theorem NonEmptyInv_registerAllKey (s : ObjectStore) (kv : String × List Node) (tmo : Nat)
    (hinv : NonEmptyInv s) (hne : kv.2 ≠ []) :
    NonEmptyInv (registerAllKey s kv tmo) := by
  obtain ⟨k, rs⟩ := kv
  cases rs with
  | nil => exact absurd rfl hne
  | cons r rs' =>
      cases hd : alookup s.data k with
      | some m =>
          have hst1 : (if (alookup s.data k).isSome then s
              else { s with data := ainsert k [] s.data }) = s := by
            rw [hd]
            rfl
          show NonEmptyInv ((r :: rs').foldl (fun st2 r2 => registerOne st2 k tmo r2)
            (if (alookup s.data k).isSome then s
             else { s with data := ainsert k [] s.data }))
          rw [hst1]
          exact NonEmptyInv_foldRegisterOne k tmo (r :: rs') s hinv
      | none =>
          have hst1 : (if (alookup s.data k).isSome then s
              else { s with data := ainsert k [] s.data })
              = { s with data := ainsert k [] s.data } := by
            rw [hd]
            rfl
          show NonEmptyInv ((r :: rs').foldl (fun st2 r2 => registerOne st2 k tmo r2)
            (if (alookup s.data k).isSome then s
             else { s with data := ainsert k [] s.data }))
          rw [hst1]
          have h1 : NonEmptyInv (registerOne { s with data := ainsert k [] s.data } k tmo r) := by
            apply NonEmptyInv_registerOne_except
            intro key inner hk h
            rw [show ({ s with data := ainsert k [] s.data } : ObjectStore).data
                = ainsert k [] s.data from rfl] at h
            rw [alookup_ainsert_ne k key _ _ hk] at h
            exact hinv key inner h
          exact NonEmptyInv_foldRegisterOne k tmo rs' _ h1

/-- Every branch of `fireTimer` either leaves the directory map unchanged or
replaces one present key's inner map by the same map minus one replica. -/
theorem fireTimer_data_cases (s : ObjectStore) (tid : Nat) :
    (s.fireTimer tid).data = s.data ∨
    ∃ tkey trep inner, alookup s.data tkey = some inner ∧
      (s.fireTimer tid).data = ainsert tkey (aerase trep inner) s.data := by
  unfold ObjectStore.fireTimer
  cases ht : alookup s.timers tid with
  | none => exact Or.inl rfl
  | some t =>
      dsimp only
      by_cases hl : t.live = true
      · rw [if_pos hl]
        cases hd : alookup s.data t.tkey with
        | none => exact Or.inl rfl
        | some inner =>
            dsimp only
            cases hin : alookup inner t.treplica with
            | none => exact Or.inl rfl
            | some cur => exact Or.inr ⟨t.tkey, t.treplica, inner, hd, rfl⟩
      · rw [if_neg hl]
        exact Or.inl rfl

/-- `RegisterAll` preserves the non-empty-set invariant when every replica
list in the batch is non-empty. -/
theorem NonEmptyInv_registerAll (tmo : Nat) :
    ∀ (rmap : List (String × List Node)) (s : ObjectStore), NonEmptyInv s →
      (∀ kv ∈ rmap, kv.2 ≠ []) → NonEmptyInv (s.RegisterAll rmap tmo) := by
  intro rmap
  induction rmap with
  | nil =>
      intro s h _
      exact h
  | cons kv rest ih =>
      intro s h hne
      exact ih (registerAllKey s kv tmo)
        (NonEmptyInv_registerAllKey s kv tmo h (hne kv (List.mem_cons_self kv rest)))
        (fun kv2 hm => hne kv2 (List.mem_cons_of_mem kv hm))

/-- C4 corrected (amended claim): the non-empty-set invariant is preserved by
`Register`, `UnregisterAll`, `GetTransferRegistrations` (which delete whole key
entries), and by `RegisterAll` on batches whose replica lists are all
non-empty; `Get` mutates nothing. But `Unregister` and the expiry callback
never delete a key entry — a key present before stays present (possibly with an
empty set) — so an operation that empties a key's set leaves an empty entry
rather than deleting the key, and the claimed invariant fails for them. -/
theorem nonempty_inv_amended (s : ObjectStore) (k : String) (n : Node) (tmo : Nat)
    (hinv : NonEmptyInv s) :
    NonEmptyInv (s.Register k n tmo).2 ∧
    NonEmptyInv (s.UnregisterAll k).2 ∧
    (∀ bc hash lN rN, NonEmptyInv (ObjectStore.GetTransferRegistrations bc hash s lN rN).2) ∧
    (∀ rmap, (∀ kv ∈ rmap, kv.2 ≠ []) → NonEmptyInv (s.RegisterAll rmap tmo)) ∧
    (∀ k2, (alookup ((s.Unregister k n).2).data k2).isSome = (alookup s.data k2).isSome) ∧
    (∀ tid k2, (alookup ((s.fireTimer tid).data) k2).isSome = (alookup s.data k2).isSome) := by
  refine ⟨?_, ?_, ?_, ?_, ?_, ?_⟩
  · cases hd : alookup s.data k with
    | none =>
        rw [Register_fresh_absent hd]
        intro key inner h
        dsimp only at h
        by_cases hk : key = k
        · subst hk
          rw [alookup_ainsert_self] at h
          injection h with h2
          exact h2 ▸ ainsert_ne_nil n s.nextId []
        · rw [alookup_ainsert_ne k key _ _ hk, alookup_ainsert_ne k key _ _ hk] at h
          exact hinv key inner h
    | some m =>
        cases him : alookup m n with
        | none =>
            rw [Register_fresh_present hd him]
            intro key inner h
            dsimp only at h
            by_cases hk : key = k
            · subst hk
              rw [alookup_ainsert_self] at h
              injection h with h2
              exact h2 ▸ ainsert_ne_nil n s.nextId m
            · rw [alookup_ainsert_ne k key _ _ hk] at h
              exact hinv key inner h
        | some tid =>
            rw [Register_refresh hd him]
            exact hinv
  · intro key inner h
    by_cases hk : key = k
    · subst hk
      rw [show ((s.UnregisterAll key).2).data = aerase key s.data from rfl,
        alookup_aerase_self] at h
      exact Option.noConfusion h
    · rw [show ((s.UnregisterAll k).2).data = aerase k s.data from rfl,
        alookup_aerase_ne k key _ hk] at h
      exact hinv key inner h
  · intro bc hash lN rN key inner h
    rw [show ((ObjectStore.GetTransferRegistrations bc hash s lN rN).2).data
        = ((s.data.filter (fun kv => bc (hash kv.1) rN.id lN.id)).map
            (fun kv => (kv.1, sliceNodes kv.2))).foldl (fun d kv => aerase kv.1 d) s.data
        from rfl, alookup_foldl_aerase] at h
    by_cases hmem : key ∈ (((s.data.filter (fun kv => bc (hash kv.1) rN.id lN.id)).map
        (fun kv => (kv.1, sliceNodes kv.2))).map Prod.fst)
    · rw [if_pos hmem] at h
      exact Option.noConfusion h
    · rw [if_neg hmem] at h
      exact hinv key inner h
  · intro rmap hne
    exact NonEmptyInv_registerAll tmo rmap s hinv hne
  · intro k2
    cases hd : alookup s.data k with
    | none => rw [Unregister_absent hd]
    | some m =>
        rw [Unregister_present hd]
        dsimp only
        by_cases hk : k2 = k
        · subst hk
          rw [alookup_ainsert_self, hd]
          rfl
        · rw [alookup_ainsert_ne k k2 _ _ hk]
  · intro tid k2
    rcases fireTimer_data_cases s tid with hcase | ⟨tk, tr, inner, hdk, hcase⟩
    · rw [hcase]
    · rw [hcase]
      by_cases hk : k2 = tk
      · subst hk
        rw [alookup_ainsert_self, hdk]
        rfl
      · rw [alookup_ainsert_ne tk k2 _ _ hk]

/-- Witness for the amended C4 at a concrete state (the fresh directory, which
trivially satisfies the invariant). -/
theorem nonempty_inv_amended_witness :
    NonEmptyInv (NewObjectStore.Register "k" nodeA TIMEOUT).2 ∧
    NonEmptyInv (NewObjectStore.UnregisterAll "k").2 ∧
    (∀ bc hash lN rN,
      NonEmptyInv (ObjectStore.GetTransferRegistrations bc hash NewObjectStore lN rN).2) ∧
    (∀ rmap, (∀ kv ∈ rmap, kv.2 ≠ []) →
      NonEmptyInv (NewObjectStore.RegisterAll rmap TIMEOUT)) ∧
    (∀ k2, (alookup ((NewObjectStore.Unregister "k" nodeA).2).data k2).isSome
      = (alookup NewObjectStore.data k2).isSome) ∧
    (∀ tid k2, (alookup ((NewObjectStore.fireTimer tid).data) k2).isSome
      = (alookup NewObjectStore.data k2).isSome) :=
  nonempty_inv_amended NewObjectStore "k" nodeA TIMEOUT
    (fun _ _ h => Option.noConfusion h)

/-- The timer bookkeeping invariant tying the directory map to timer state:
every live timer is the one its (key, replica) entry references, every
referenced timer is live with matching key and replica, timer identities are
unique, and all identities are below the allocator. -/
def TimerRefInv (s : ObjectStore) : Prop :=
  (∀ tid t, alookup s.timers tid = some t → t.live = true →
      alookup ((alookup s.data t.tkey).getD []) t.treplica = some tid) ∧
  (∀ key inner replica tid, alookup s.data key = some inner →
      alookup inner replica = some tid →
      ∃ t, alookup s.timers tid = some t ∧ t.live = true ∧
        t.tkey = key ∧ t.treplica = replica) ∧
  (s.timers.map Prod.fst).Nodup ∧
  (∀ tid t, alookup s.timers tid = some t → tid < s.nextId)

/-- Lookup through a pointwise update of the entry with a given key. -/
theorem alookup_mapIf {γ : Type} (l : List (Nat × γ)) (tid : Nat) (g : γ → γ) (k : Nat) :
    alookup (l.map (fun p => if p.1 = tid then (p.1, g p.2) else p)) k =
      if k = tid then (alookup l k).map g else alookup l k := by
  induction l with
  | nil => by_cases h : k = tid <;> simp [alookup, h]
  | cons p rest ih =>
      obtain ⟨a, c⟩ := p
      simp only [List.map_cons]
      by_cases hat : a = tid
      · rw [if_pos hat]
        by_cases hak : a = k
        · have hkt : k = tid := by rw [← hak, hat]
          rw [alookup_cons, if_pos hak, if_pos hkt, alookup_cons, if_pos hak]
          rfl
        · have hkt : ¬ k = tid := by
            intro h
            exact hak (by rw [hat, ← h])
          rw [alookup_cons, if_neg hak, ih, if_neg hkt, if_neg hkt, alookup_cons, if_neg hak]
      · rw [if_neg hat]
        by_cases hak : a = k
        · have hkt : ¬ k = tid := by
            intro h
            exact hat (by rw [hak, h])
          rw [alookup_cons, if_pos hak, if_neg hkt, alookup_cons, if_pos hak]
        · rw [alookup_cons, if_neg hak, ih]
          by_cases hkt : k = tid
          · rw [if_pos hkt, if_pos hkt, alookup_cons, if_neg hak]
          · rw [if_neg hkt, if_neg hkt, alookup_cons, if_neg hak]

/-- A pointwise update of one entry's value leaves the key list unchanged. -/
theorem keys_mapIf {γ : Type} (l : List (Nat × γ)) (tid : Nat) (g : γ → γ) :
    (l.map (fun p => if p.1 = tid then (p.1, g p.2) else p)).map Prod.fst
      = l.map Prod.fst := by
  induction l with
  | nil => rfl
  | cons p rest ih =>
      obtain ⟨a, c⟩ := p
      by_cases hat : a = tid <;> simp [hat, ih]

/-- Lookup distributes over list append, preferring the left list. -/
theorem alookup_append {α β : Type} [DecidableEq α] (l l' : List (α × β)) (k : α) :
    alookup (l ++ l') k = match alookup l k with
      | some v => some v
      | none => alookup l' k := by
  induction l with
  | nil => simp [alookup]
  | cons p rest ih =>
      obtain ⟨a, b⟩ := p
      by_cases h : a = k <;> simp [alookup, h, ih]

/-- With unique keys, a list member is exactly what lookup at its key finds. -/
theorem alookup_of_mem_nodup {α β : Type} [DecidableEq α] {l : List (α × β)} {e : α × β}
    (hnd : (l.map Prod.fst).Nodup) (he : e ∈ l) : alookup l e.1 = some e.2 := by
  induction l with
  | nil => cases he
  | cons p rest ih =>
      obtain ⟨a, b⟩ := p
      simp only [List.map_cons, List.nodup_cons] at hnd
      rcases List.mem_cons.mp he with rfl | hmem
      · rw [alookup_cons, if_pos rfl]
      · have hne : ¬ a = e.1 := fun h => hnd.1 (h ▸ List.mem_map_of_mem Prod.fst hmem)
        rw [alookup_cons, if_neg hne]
        exact ih hnd.2 hmem

/-- Timer lookup after `resetTimer`. -/
theorem alookup_resetTimer (s : ObjectStore) (tid d k : Nat) :
    alookup (s.resetTimer tid d).timers k =
      if k = tid then (alookup s.timers k).map
        (fun t => ⟨t.tkey, t.treplica, s.now + d, true⟩) else alookup s.timers k :=
  alookup_mapIf s.timers tid (fun t => ⟨t.tkey, t.treplica, s.now + d, true⟩) k

/-- Timer lookup after `stopTimer`. -/
theorem alookup_stopTimer (timers : List (Nat × Timer)) (tid k : Nat) :
    alookup (stopTimer timers tid) k =
      if k = tid then (alookup timers k).map
        (fun t => ⟨t.tkey, t.treplica, t.deadline, false⟩) else alookup timers k :=
  alookup_mapIf timers tid (fun t => ⟨t.tkey, t.treplica, t.deadline, false⟩) k

/-- `resetTimer` does not change the set of timer identities. -/
theorem keys_resetTimer (s : ObjectStore) (tid d : Nat) :
    ((s.resetTimer tid d).timers).map Prod.fst = s.timers.map Prod.fst :=
  keys_mapIf s.timers tid (fun t => ⟨t.tkey, t.treplica, s.now + d, true⟩)

/-- If every entry satisfying a predicate carries one fixed key and keys are
unique, at most one entry satisfies the predicate. -/
theorem countP_le_one_of_eq {γ : Type} (l : List (Nat × γ)) (p : Nat × γ → Bool) (c : Nat)
    (hnd : (l.map Prod.fst).Nodup) (h : ∀ e ∈ l, p e = true → e.1 = c) :
    l.countP p ≤ 1 := by
  induction l with
  | nil => simp
  | cons e rest ih =>
      simp only [List.map_cons, List.nodup_cons] at hnd
      by_cases hp : p e = true
      · have hc : e.1 = c := h e (List.mem_cons_self e rest) hp
        have hzero : rest.countP p = 0 := by
          rw [List.countP_eq_zero]
          intro x hx hpx
          have hx1 : x.1 = e.1 := by
            rw [h x (List.mem_cons_of_mem e hx) hpx, hc]
          exact absurd (hx1 ▸ List.mem_map_of_mem Prod.fst hx) hnd.1
        rw [List.countP_cons, hzero, if_pos hp]
      · rw [List.countP_cons, if_neg hp]
        have := ih hnd.2 (fun x hx hpx => h x (List.mem_cons_of_mem e hx) hpx)
        omega

/-- Under the timer bookkeeping invariant, each (key, replica) pair has at most
one live timer. -/
theorem atMostOne_of_inv (s : ObjectStore) (hinv : TimerRefInv s) : AtMostOneLive s := by
  obtain ⟨h1, _h2, hnd, _hlt⟩ := hinv
  intro key replica
  rw [liveTimersFor]
  cases hc : alookup ((alookup s.data key).getD []) replica with
  | none =>
      have hzero : s.timers.countP (fun p =>
          p.2.live && decide (p.2.tkey = key) && decide (p.2.treplica = replica)) = 0 := by
        rw [List.countP_eq_zero]
        intro e he hpe
        simp only [Bool.and_eq_true, decide_eq_true_eq] at hpe
        obtain ⟨⟨hlive, htk⟩, htr⟩ := hpe
        have hlook : alookup s.timers e.1 = some e.2 := alookup_of_mem_nodup hnd he
        have href := h1 e.1 e.2 hlook hlive
        rw [htk, htr, hc] at href
        exact Option.noConfusion href
      omega
  | some tid =>
      apply countP_le_one_of_eq s.timers _ tid hnd
      intro e he hpe
      simp only [Bool.and_eq_true, decide_eq_true_eq] at hpe
      obtain ⟨⟨hlive, htk⟩, htr⟩ := hpe
      have hlook : alookup s.timers e.1 = some e.2 := alookup_of_mem_nodup hnd he
      have href := h1 e.1 e.2 hlook hlive
      rw [htk, htr, hc] at href
      injection href with h3
      exact h3.symm

/-- The directory map is untouched by `resetTimer`. -/
theorem resetTimer_data (s : ObjectStore) (tid d : Nat) :
    (s.resetTimer tid d).data = s.data := rfl

/-- `Register` preserves the timer bookkeeping invariant: a fresh registration
allocates one new live timer referenced by its new entry, and a refresh resets
the already-referenced timer in place without allocating another. -/
theorem timerRefInv_register (s : ObjectStore) (k : String) (n : Node) (tmo : Nat)
    (hinv : TimerRefInv s) : TimerRefInv (s.Register k n tmo).2 := by
  obtain ⟨h1, h2, hnd, hlt⟩ := hinv
  have hTlook : ∀ (tN : Timer) (tid2 : Nat),
      alookup (s.timers ++ [(s.nextId, tN)]) tid2 =
        if tid2 = s.nextId then some tN else alookup s.timers tid2 := by
    intro tN tid2
    rw [alookup_append]
    cases hts : alookup s.timers tid2 with
    | some t =>
        have hlt2 := hlt tid2 t hts
        rw [if_neg (by omega)]
    | none =>
        by_cases he : tid2 = s.nextId
        · subst he
          rw [if_pos rfl, alookup_cons, if_pos rfl]
        · rw [if_neg he, alookup_cons, if_neg (fun hh => he hh.symm)]
          rfl
  have hnidlook : alookup s.timers s.nextId = none := by
    cases hts : alookup s.timers s.nextId with
    | none => rfl
    | some t =>
        have := hlt s.nextId t hts
        omega
  cases hd : alookup s.data k with
  | none =>
      rw [Register_fresh_absent hd]
      dsimp only
      have hDlook : ∀ key,
          alookup (ainsert k (ainsert n s.nextId []) (ainsert k [] s.data)) key
            = if key = k then some (ainsert n s.nextId []) else alookup s.data key := by
        intro key
        by_cases hk : key = k
        · subst hk
          rw [if_pos rfl, alookup_ainsert_self]
        · rw [if_neg hk, alookup_ainsert_ne k key _ _ hk, alookup_ainsert_ne k key _ _ hk]
      refine ⟨?_, ?_, ?_, ?_⟩
      · intro tid2 t ht hlive
        dsimp only at ht ⊢
        rw [hTlook] at ht
        by_cases htid : tid2 = s.nextId
        · rw [if_pos htid] at ht
          injection ht with ht
          subst ht
          dsimp only
          rw [hDlook k, if_pos rfl]
          simp only [Option.getD_some]
          rw [htid]
          exact alookup_ainsert_self n s.nextId []
        · rw [if_neg htid] at ht
          have href := h1 tid2 t ht hlive
          rw [hDlook t.tkey]
          by_cases hk : t.tkey = k
          · rw [hk, hd] at href
            simp [alookup] at href
          · rw [if_neg hk]
            exact href
      · intro key inner2 rep tid2 hk1 hk2
        dsimp only at hk1
        rw [hDlook key] at hk1
        by_cases hkk : key = k
        · rw [if_pos hkk] at hk1
          injection hk1 with hk1
          subst hk1
          by_cases hrep : rep = n
          · subst hrep
            rw [alookup_ainsert_self] at hk2
            injection hk2 with hk2
            refine ⟨⟨k, rep, s.now + tmo, true⟩, ?_, rfl, hkk.symm, rfl⟩
            dsimp only
            rw [hTlook, if_pos hk2.symm]
          · rw [alookup_ainsert_ne n rep _ _ hrep] at hk2
            simp [alookup] at hk2
        · rw [if_neg hkk] at hk1
          obtain ⟨t, hlook, hlive, htk, htr⟩ := h2 key inner2 rep tid2 hk1 hk2
          refine ⟨t, ?_, hlive, htk, htr⟩
          dsimp only
          rw [hTlook, if_neg ?_]
          · exact hlook
          · have := hlt tid2 t hlook
            omega
      · dsimp only
        rw [List.map_append]
        refine List.Nodup.append hnd (by simp) ?_
        intro a ha hb
        simp only [List.map_cons, List.map_nil, List.mem_singleton] at hb
        subst hb
        rw [alookup_eq_none] at hnidlook
        exact hnidlook ha
      · intro tid2 t ht
        dsimp only at ht ⊢
        rw [hTlook] at ht
        by_cases htid : tid2 = s.nextId
        · subst htid
          omega
        · rw [if_neg htid] at ht
          have := hlt tid2 t ht
          omega
  | some m =>
      cases him : alookup m n with
      | none =>
          rw [Register_fresh_present hd him]
          dsimp only
          have hDlook : ∀ key, alookup (ainsert k (ainsert n s.nextId m) s.data) key
              = if key = k then some (ainsert n s.nextId m) else alookup s.data key := by
            intro key
            by_cases hk : key = k
            · subst hk
              rw [if_pos rfl, alookup_ainsert_self]
            · rw [if_neg hk, alookup_ainsert_ne k key _ _ hk]
          refine ⟨?_, ?_, ?_, ?_⟩
          · intro tid2 t ht hlive
            dsimp only at ht ⊢
            rw [hTlook] at ht
            by_cases htid : tid2 = s.nextId
            · rw [if_pos htid] at ht
              injection ht with ht
              subst ht
              dsimp only
              rw [hDlook k, if_pos rfl]
              simp only [Option.getD_some]
              rw [htid]
              exact alookup_ainsert_self n s.nextId m
            · rw [if_neg htid] at ht
              have href := h1 tid2 t ht hlive
              rw [hDlook t.tkey]
              by_cases hk : t.tkey = k
              · rw [if_pos hk]
                rw [hk, hd] at href
                simp only [Option.getD_some] at href ⊢
                by_cases hrep : t.treplica = n
                · rw [hrep, him] at href
                  exact Option.noConfusion href
                · rw [alookup_ainsert_ne n t.treplica _ _ hrep]
                  exact href
              · rw [if_neg hk]
                exact href
          · intro key inner2 rep tid2 hk1 hk2
            dsimp only at hk1
            rw [hDlook key] at hk1
            by_cases hkk : key = k
            · rw [if_pos hkk] at hk1
              injection hk1 with hk1
              subst hk1
              by_cases hrep : rep = n
              · subst hrep
                rw [alookup_ainsert_self] at hk2
                injection hk2 with hk2
                refine ⟨⟨k, rep, s.now + tmo, true⟩, ?_, rfl, hkk.symm, rfl⟩
                dsimp only
                rw [hTlook, if_pos hk2.symm]
              · rw [alookup_ainsert_ne n rep _ _ hrep] at hk2
                obtain ⟨t, hlook, hlive, htk, htr⟩ := h2 k m rep tid2 hd hk2
                refine ⟨t, ?_, hlive, htk.trans hkk.symm, htr⟩
                dsimp only
                rw [hTlook, if_neg ?_]
                · exact hlook
                · have := hlt tid2 t hlook
                  omega
            · rw [if_neg hkk] at hk1
              obtain ⟨t, hlook, hlive, htk, htr⟩ := h2 key inner2 rep tid2 hk1 hk2
              refine ⟨t, ?_, hlive, htk, htr⟩
              dsimp only
              rw [hTlook, if_neg ?_]
              · exact hlook
              · have := hlt tid2 t hlook
                omega
          · dsimp only
            rw [List.map_append]
            refine List.Nodup.append hnd (by simp) ?_
            intro a ha hb
            simp only [List.map_cons, List.map_nil, List.mem_singleton] at hb
            subst hb
            rw [alookup_eq_none] at hnidlook
            exact hnidlook ha
          · intro tid2 t ht
            dsimp only at ht ⊢
            rw [hTlook] at ht
            by_cases htid : tid2 = s.nextId
            · subst htid
              omega
            · rw [if_neg htid] at ht
              have := hlt tid2 t ht
              omega
      | some tid =>
          rw [Register_refresh hd him]
          dsimp only
          obtain ⟨t0, hlook0, hlive0, htk0, htr0⟩ := h2 k m n tid hd him
          refine ⟨?_, ?_, ?_, ?_⟩
          · intro tid2 t ht hlive
            rw [alookup_resetTimer] at ht
            by_cases htid : tid2 = tid
            · rw [if_pos htid, Option.map_eq_some'] at ht
              obtain ⟨t1, ht1, hgt⟩ := ht
              rw [htid, hlook0] at ht1
              injection ht1 with ht1
              subst ht1
              subst hgt
              rw [resetTimer_data]
              dsimp only
              rw [htk0, htr0, hd]
              simp only [Option.getD_some]
              rw [him, htid]
            · rw [if_neg htid] at ht
              have href := h1 tid2 t ht hlive
              rw [resetTimer_data]
              exact href
          · intro key inner2 rep tid2 hk1 hk2
            rw [resetTimer_data] at hk1
            obtain ⟨t, hlook, hlive, htk, htr⟩ := h2 key inner2 rep tid2 hk1 hk2
            by_cases htid : tid2 = tid
            · refine ⟨⟨t.tkey, t.treplica, s.now + TIMEOUT, true⟩, ?_, rfl, htk, htr⟩
              rw [alookup_resetTimer, if_pos htid, hlook]
              rfl
            · refine ⟨t, ?_, hlive, htk, htr⟩
              rw [alookup_resetTimer, if_neg htid]
              exact hlook
          · rw [keys_resetTimer]
            exact hnd
          · intro tid2 t ht
            rw [alookup_resetTimer] at ht
            by_cases htid : tid2 = tid
            · rw [if_pos htid, Option.map_eq_some'] at ht
              obtain ⟨t1, ht1, _⟩ := ht
              exact hlt tid2 t1 ht1
            · rw [if_neg htid] at ht
              exact hlt tid2 t ht

/-- C5 corrected (amended claim): in every state where live timers are exactly
the ones the directory's (key, replica) entries reference, each pair has at
most one live timer, and `Register` preserves this correspondence — a fresh
registration allocates a single referenced timer and a refresh resets the
referenced timer in place. `RegisterAll`, however, overwrites only the
directory's timer reference without stopping the pre-existing timer, so its
overwrite of a pre-existing registration leaves the pair's previous timer live
alongside the new one, violating the claimed invariant. -/
theorem register_timer_inv_amended (s : ObjectStore) (k : String) (n : Node) (tmo : Nat)
    (hinv : TimerRefInv s) :
    TimerRefInv (s.Register k n tmo).2 ∧ AtMostOneLive s :=
  ⟨timerRefInv_register s k n tmo hinv, atMostOne_of_inv s hinv⟩

/-- Witness for the amended C5 at a concrete state: the fresh directory
satisfies the timer bookkeeping invariant, so registering into it keeps it and
the fresh directory has at most one live timer per pair. -/
theorem register_timer_inv_amended_witness :
    TimerRefInv ((NewObjectStore.Register "k" nodeA TIMEOUT).2) ∧
    AtMostOneLive NewObjectStore :=
  register_timer_inv_amended NewObjectStore "k" nodeA TIMEOUT
    ⟨fun _ _ ht _ => Option.noConfusion ht,
     fun _ _ _ _ hk => Option.noConfusion hk,
     by simp [NewObjectStore],
     fun _ _ ht => Option.noConfusion ht⟩
